import Mathlib

/-!
Verification of the `VerilogBits` bit-vector component of the Veriflow
repository (`veriflow/verilog_bits.py`, serialization in
`veriflow/mem_tools.py`).

The embedding follows the Python source.  `VerilogBits` wraps a
`bitstring.BitArray`; the bit buffer is modelled as a `List Bool` in the
library's internal storage order: index 0 is the leftmost bit, which is
the most-significant bit of the whole vector.  Fallible Python code
(operations that raise) is modelled with `Except Err`.  The `Err`
constructors name the Python exception classes raised by the code; the
spec's error taxonomy maps onto them as follows:
`InvalidRange` / `UnsupportedOperation` / `TypeMismatch` -> `TypeError` or
`ValueError`, `IndexOutOfRange` -> `IndexError`, `OutOfRange` /
`ParseError` -> `bitstring.CreationError`, and interpretation failures of
accessors -> `bitstring.InterpretError`.

Behaviour that the Python class delegates to the `bitstring` library
(construction from integers and literals, slice reading and assignment,
the `.bin` / `.hex` / `.uint` / `.int` accessors) is embedded from that
library's semantics, since the repository pins `bitstring>=3.1.0` as its
dependency and the class is a thin wrapper over it.
-/

set_option linter.unusedVariables false

namespace Veriflow

/-- Python exception classes raised by the code under verification. -/
inductive Err where
  | valueError (msg : String)
  | indexError (msg : String)
  | typeError (msg : String)
  | creationError (msg : String)
  | interpretError (msg : String)
  deriving Repr, DecidableEq

/-! ### Bit-level helpers (semantics of `bitstring` numeral encoding)

`bitstring` stores bits left to right with the most significant first.
`natToBitsLE` produces the little-endian digit list of a number, so the
stored buffer for an unsigned number of width `L` is its reverse. -/

/-- Little-endian binary digits of `v`, exactly `L` of them. -/
def natToBitsLE (v : Nat) : Nat → List Bool
  | 0 => []
  | L + 1 => (v % 2 = 1) :: natToBitsLE (v / 2) L

/-- The `L`-bit unsigned encoding of `v`, most-significant bit first
(the storage order of `bitstring.BitArray(uint=v, length=L)`). -/
def uintBits (v L : Nat) : List Bool :=
  (natToBitsLE v L).reverse

/-- Value of a little-endian digit list. -/
def bitsFromLE : List Bool → Nat
  | [] => 0
  | b :: bs => (if b then 1 else 0) + 2 * bitsFromLE bs

/-- Unsigned value of a most-significant-first buffer
(the semantics of `bitstring`'s `.uint` accessor). -/
def bitsToNat (bs : List Bool) : Nat :=
  bs.foldl (fun acc b => 2 * acc + (if b then 1 else 0)) 0

/-! ### The `VerilogBits` data model -/

/-- Model of `VerilogBits` from `veriflow/verilog_bits.py`: the single field is the
private `_data` buffer (`bitstring.BitArray`), most-significant bit
first. -/
structure VerilogBits where
  data : List Bool
  deriving Repr, DecidableEq

/-- Python `len(v)` (`__len__`). -/
def VerilogBits.length (v : VerilogBits) : Nat := v.data.length

/-- The `.bin` accessor: binary representation as a string. -/
def VerilogBits.bin (v : VerilogBits) : String :=
  String.mk (v.data.map (fun b => if b then '1' else '0'))

/-- The `.uint` accessor (`bitstring`'s `.uint`): fails with
`InterpretError` on a zero-length buffer, else the unsigned value. -/
def VerilogBits.uint (v : VerilogBits) : Except Err Nat :=
  if v.data.isEmpty then
    .error (.interpretError "Cannot interpret a zero length bitstring as an integer.")
  else
    .ok (bitsToNat v.data)

/-- The `.sint` accessor (`bitstring`'s `.int`): two's-complement signed
value of the buffer. -/
def VerilogBits.sint (v : VerilogBits) : Except Err Int :=
  if v.data.isEmpty then
    .error (.interpretError "Cannot interpret a zero length bitstring as an integer.")
  else
    let u := bitsToNat v.data
    .ok (if u < 2 ^ (v.data.length - 1) then (u : Int) else (u : Int) - 2 ^ v.data.length)

/-! ### Construction (`__init__`) -/

/-- A well-formed radix-prefixed numeral literal string, by radix tag and
digit list: `bin ds` stands for `"0b" ++ digits`, `hex ds` for
`"0x" ++ digits` with each hex digit already mapped to its 4-bit value. -/
inductive StrLit where
  | bin (ds : List Bool)
  | hex (ds : List (Fin 16))
  deriving Repr, DecidableEq

/-- Semantics of `bitstring.BitArray(s)` on a well-formed literal: a binary literal
contributes its digits, a hex literal four bits per digit,
most-significant first. -/
def parseLit : StrLit → List Bool
  | .bin ds => ds
  | .hex ds => ds.flatMap (fun d => uintBits d.val 4)

/-- The possible runtime types of the `value` argument of `__init__`. -/
inductive InitValue where
  | vb (v : VerilogBits)
  | bitarray (b : List Bool)
  | int (v : Int)
  | str (s : StrLit)
  | pyNone
  deriving Repr, DecidableEq

/-- Semantics of `bitstring.BitArray(uint=v, length=L)`: fails with `CreationError`
when no positive length is given, when `v` is negative, or when
`v >= 2^L`; otherwise the `L`-bit unsigned encoding. -/
def bitArrayUint (v : Int) (length : Option Nat) : Except Err (List Bool) :=
  match length with
  | none => .error (.creationError "A non-zero length must be specified with a uint initialiser.")
  | some 0 => .error (.creationError "A non-zero length must be specified with a uint initialiser.")
  | some L =>
    if v < 0 then .error (.creationError "uint cannot be initialised by a negative number.")
    else if v ≥ 2 ^ L then .error (.creationError "uint is too large for a bitstring of this length.")
    else .ok (uintBits v.toNat L)

/-- Semantics of `bitstring.BitArray(int=v, length=L)`: fails with `CreationError`
when no positive length is given or `v` is outside the two's-complement
range; otherwise the `L`-bit two's-complement encoding. -/
def bitArrayInt (v : Int) (length : Option Nat) : Except Err (List Bool) :=
  match length with
  | none => .error (.creationError "A non-zero length must be specified with an int initialiser.")
  | some 0 => .error (.creationError "A non-zero length must be specified with an int initialiser.")
  | some L =>
    if v < -(2 ^ (L - 1)) ∨ v > 2 ^ (L - 1) - 1 then
      .error (.creationError "int is too large for a bitstring of this length.")
    else
      .ok (uintBits (v.emod (2 ^ L)).toNat L)

/-- Python's `d[-L:]` on a list: the last `L` elements, except that
`L = 0` gives `d[0:]`, the whole list (`-0 == 0`). -/
def pyTail (d : List Bool) (L : Nat) : List Bool :=
  if L = 0 then d else d.drop (d.length - L)

/-- The constructor `VerilogBits.__init__(value, length, signed)`.
A `VerilogBits` argument is value-copied; a raw `BitArray` is adopted;
an integer goes through the `uint`/`int` initialiser of `bitstring`
according to `signed`; a string (or `None`, which `bitstring` turns into
an empty buffer) is parsed at its natural width and then, when `length`
is given, truncated via `self._data[-length:]` if too long or
zero-extended on the left if too short. -/
def VerilogBits.init (value : InitValue) (length : Option Nat) (signed : Bool) :
    Except Err VerilogBits :=
  match value with
  | .vb v => .ok ⟨v.data⟩
  | .bitarray b => .ok ⟨b⟩
  | .int v =>
    (if signed then bitArrayInt v length else bitArrayUint v length).map (⟨·⟩)
  | .str s =>
    let d := parseLit s
    match length with
    | none => .ok ⟨d⟩
    | some L =>
      if d.length > L then .ok ⟨pyTail d L⟩
      else if d.length < L then .ok ⟨List.replicate (L - d.length) false ++ d⟩
      else .ok ⟨d⟩
  | .pyNone =>
    let d : List Bool := []
    match length with
    | none => .ok ⟨d⟩
    | some L =>
      if d.length > L then .ok ⟨pyTail d L⟩
      else if d.length < L then .ok ⟨List.replicate (L - d.length) false ++ d⟩
      else .ok ⟨d⟩

/-! ### Indexing and slicing -/

/-- The helper `_parse_verilog_slice`: converts a Verilog-style `[MSB:LSB]` key into
Python storage indices.  Raises `ValueError` when `lsb > msb`,
`IndexError` when an index is outside `[0, length-1]`; otherwise returns
`(length - 1 - msb, length - 1 - lsb + 1)`. -/
def VerilogBits.parseVerilogSlice (v : VerilogBits) (msb lsb : Int) :
    Except Err (Nat × Nat) :=
  if lsb > msb then
    .error (.valueError "LSB cannot be greater than MSB in Verilog-style slicing.")
  else
    let bitLength : Int := v.data.length
    let maxIndex : Int := bitLength - 1
    if 0 ≤ msb ∧ msb ≤ maxIndex ∧ 0 ≤ lsb ∧ lsb ≤ maxIndex then
      .ok ((bitLength - 1 - msb).toNat, (bitLength - 1 - lsb + 1).toNat)
    else
      .error (.indexError "Slice indices are out of bounds.")

/-- Python step-1 slice `xs[start:stop]` as implemented by
`bitstring.Bits.__getitem__`: a negative bound has the length added once,
the start is clamped below at 0, the stop is clamped above at the length,
and an empty result is returned when they cross. -/
def pySliceGet (xs : List Bool) (start stop : Int) : List Bool :=
  let n : Int := xs.length
  let s := max (if start < 0 then start + n else start) 0
  let e := min (if stop < 0 then stop + n else stop) n
  if s < e then (xs.drop s.toNat).take (e - s).toNat else []

/-- Method `__getitem__` with a slice key `v[msb:lsb]` (with optional step):
rejects a step with `ValueError`, then translates the indices via
`_parse_verilog_slice` and wraps the selected storage range in a new
`VerilogBits`. -/
def VerilogBits.getSlice (v : VerilogBits) (msb lsb : Int) (step : Option Int) :
    Except Err VerilogBits := do
  if step ≠ none then
    throw (.valueError "Step is not supported in Verilog-style slicing.")
  let (s, e) ← v.parseVerilogSlice msb lsb
  return ⟨(v.data.drop s).take (e - s)⟩

/-- Method `__getitem__` with an integer key: the code evaluates
`self._data[key:key+1]`, a Python slice, so it never raises on an
out-of-range key — it produces an empty buffer instead. -/
def VerilogBits.getInt (v : VerilogBits) (key : Int) : VerilogBits :=
  ⟨pySliceGet v.data key (key + 1)⟩

/-- Method `__setitem__` with a slice key `v[msb:lsb] = value` (mutation modelled
by returning the updated object).  The value is first normalized by
`VerilogBits(value)` — no target length.  Then the step check and index
translation run as for reads, and `bitstring`'s slice assignment splices
the normalized buffer over storage positions `[s, e)`: when the widths
differ the buffer is resized, not rejected. -/
def VerilogBits.setSlice (v : VerilogBits) (msb lsb : Int) (step : Option Int)
    (value : InitValue) : Except Err VerilogBits := do
  let normalized ← VerilogBits.init value none false
  if step ≠ none then
    throw (.valueError "Step is not supported in Verilog-style slicing.")
  let (s, e) ← v.parseVerilogSlice msb lsb
  return ⟨v.data.take s ++ normalized.data ++ v.data.drop e⟩

/-- Method `__setitem__` with an integer key: normalization as above, then
`bitstring`'s single-index assignment with a bit-array value, which
Python-normalizes a negative key, raises `IndexError` out of range, and
otherwise deletes the addressed bit and inserts the normalized buffer in
its place. -/
def VerilogBits.setInt (v : VerilogBits) (key : Int) (value : InitValue) :
    Except Err VerilogBits := do
  let normalized ← VerilogBits.init value none false
  let n : Int := v.data.length
  let positiveKey := if key < 0 then key + n else key
  if positiveKey < 0 ∨ positiveKey ≥ n then
    throw (.indexError "Bit position out of range.")
  let k := positiveKey.toNat
  return ⟨v.data.take k ++ normalized.data ++ v.data.drop (k + 1)⟩

/-! ### Concatenation and the disabled operation surface -/

/-- A Python object passed where a `VerilogBits` is expected: either an
actual instance or a value of some other runtime type. -/
inductive PyVal where
  | vb (v : VerilogBits)
  | other (typeName : String)
  deriving Repr, DecidableEq

/-- The buffer accumulation loop inside `VerilogBits.concat`: walks the
arguments in order, raising `TypeError` at the first argument that is
not a `VerilogBits` instance, otherwise appending its `_data`. -/
def concatData : List PyVal → Except Err (List Bool)
  | [] => .ok []
  | .vb v :: rest => (concatData rest).map (fun bs => v.data ++ bs)
  | .other t :: rest => .error (.typeError "Argument is not a VerilogBits instance.")

/-- Class method `VerilogBits.concat(*args)`: concatenates the arguments' buffers and
wraps the result in a new instance. -/
def VerilogBits.concat (args : List PyVal) : Except Err VerilogBits :=
  (concatData args).map (⟨·⟩)

/-- Method `__lt__`: deliberately disabled, raises `TypeError` unconditionally. -/
def VerilogBits.lt (v : VerilogBits) (other : PyVal) : Except Err Bool :=
  .error (.typeError "Comparison operators are not supported yet.")

/-- Method `__le__`: deliberately disabled. -/
def VerilogBits.le (v : VerilogBits) (other : PyVal) : Except Err Bool :=
  .error (.typeError "Comparison operators are not supported yet.")

/-- Method `__gt__`: deliberately disabled. -/
def VerilogBits.gt (v : VerilogBits) (other : PyVal) : Except Err Bool :=
  .error (.typeError "Comparison operators are not supported yet.")

/-- Method `__ge__`: deliberately disabled. -/
def VerilogBits.ge (v : VerilogBits) (other : PyVal) : Except Err Bool :=
  .error (.typeError "Comparison operators are not supported yet.")

/-- Method `__add__`: the `+` operator is disabled in favour of
`VerilogBits.concat`. -/
def VerilogBits.add (v : VerilogBits) (other : PyVal) : Except Err VerilogBits :=
  .error (.typeError "The + operator is disabled. Please use VerilogBits.concat for explicit concatenation.")

/-- Method `__sub__`: deliberately disabled. -/
def VerilogBits.sub (v : VerilogBits) (other : PyVal) : Except Err VerilogBits :=
  .error (.typeError "Arithmetic operators are not supported yet.")

/-- Method `__mul__`: deliberately disabled. -/
def VerilogBits.mul (v : VerilogBits) (other : PyVal) : Except Err VerilogBits :=
  .error (.typeError "Arithmetic operators are not supported yet.")

/-- Method `__truediv__`: deliberately disabled. -/
def VerilogBits.truediv (v : VerilogBits) (other : PyVal) : Except Err VerilogBits :=
  .error (.typeError "Arithmetic operators are not supported yet.")

/-- Method `__and__`: deliberately disabled. -/
def VerilogBits.andOp (v : VerilogBits) (other : PyVal) : Except Err VerilogBits :=
  .error (.typeError "Bitwise operators are not supported yet.")

/-- Method `__or__`: deliberately disabled. -/
def VerilogBits.orOp (v : VerilogBits) (other : PyVal) : Except Err VerilogBits :=
  .error (.typeError "Bitwise operators are not supported yet.")

/-- Method `__xor__`: deliberately disabled. -/
def VerilogBits.xorOp (v : VerilogBits) (other : PyVal) : Except Err VerilogBits :=
  .error (.typeError "Bitwise operators are not supported yet.")

/-- Method `__invert__`: deliberately disabled. -/
def VerilogBits.invert (v : VerilogBits) : Except Err VerilogBits :=
  .error (.typeError "Bitwise operators are not supported yet.")

/-- Method `__int__`: implicit conversion to a native integer is disabled. -/
def VerilogBits.toInt (v : VerilogBits) : Except Err Int :=
  .error (.typeError "Implicit conversion to int is not supported. Use .uint property.")

/-! ### Serialization (`MemTools.write_mem_file`) -/

/-- Lower-case hex digit character for a value below 16. -/
def hexDigitChar (n : Nat) : Char :=
  if n < 10 then Char.ofNat (48 + n) else Char.ofNat (87 + n)

/-- Nibble values of a most-significant-first buffer, four bits per
digit (only meaningful when the length is a multiple of four). -/
def bitsToNibbles : List Bool → List Nat
  | a :: b :: c :: d :: rest =>
    (8 * (if a then 1 else 0) + 4 * (if b then 1 else 0) +
     2 * (if c then 1 else 0) + (if d then 1 else 0)) :: bitsToNibbles rest
  | _ => []

/-- Semantics of `bitstring`'s `.hex` accessor: raises `InterpretError` when the
length is not a multiple of four bits, otherwise one lower-case hex
digit per nibble, no radix marker. -/
def VerilogBits.hex (v : VerilogBits) : Except Err String :=
  if v.data.length % 4 ≠ 0 then
    .error (.interpretError "Cannot convert to hex unambiguously - not multiple of 4 bits.")
  else
    .ok (String.mk ((bitsToNibbles v.data).map hexDigitChar))

/-- The per-word serialization performed by `MemTools.write_mem_file`:
`vb._data.hex` in hex mode, `vb.bin` in binary mode. -/
def memWordText (isHex : Bool) (v : VerilogBits) : Except Err String :=
  if isHex then v.hex else .ok v.bin

/-- Numeric value of a lower-case hex digit character (decoder used to
state what a serialized word denotes). -/
def hexCharVal (c : Char) : Nat :=
  if 48 ≤ c.toNat ∧ c.toNat ≤ 57 then c.toNat - 48 else c.toNat - 87

/-- Big-endian value of a hex digit string. -/
def hexStringVal (s : String) : Nat :=
  s.data.foldl (fun acc c => 16 * acc + hexCharVal c) 0

/-- A character writable by the hex serializer: a bare decimal digit or
a lower-case letter between a and f — in particular never an `x` or a
radix marker. -/
def isHexDigit (c : Char) : Bool :=
  ('0' ≤ c ∧ c ≤ '9') ∨ ('a' ≤ c ∧ c ≤ 'f')

/-- Hardware-convention bit access: bit `j` counts from the
least-significant end, so it sits at storage position `length - 1 - j`. -/
def VerilogBits.hwBit (v : VerilogBits) (j : Nat) : Bool :=
  v.data.getD (v.data.length - 1 - j) false

/-! ### Helper lemmas -/

theorem getD_drop (l : List Bool) (s j : Nat) (d : Bool) :
    (l.drop s).getD j d = l.getD (s + j) d := by
  simp [List.getD_eq_getElem?_getD, List.getElem?_drop]

theorem getD_take (l : List Bool) (m j : Nat) (h : j < m) (d : Bool) :
    (l.take m).getD j d = l.getD j d := by
  simp [List.getD_eq_getElem?_getD, List.getElem?_take, h]

theorem getD_append_left (xs ys : List Bool) (j : Nat) (h : j < xs.length) (d : Bool) :
    (xs ++ ys).getD j d = xs.getD j d := by
  simp [List.getD_eq_getElem?_getD, List.getElem?_append, h]

theorem getD_append_right (xs ys : List Bool) (j : Nat) (h : xs.length ≤ j) (d : Bool) :
    (xs ++ ys).getD j d = ys.getD (j - xs.length) d := by
  simp [List.getD_eq_getElem?_getD, List.getElem?_append, Nat.not_lt.mpr h]

theorem exceptMap_ok {α β : Type} (f : α → β) (a : α) :
    Except.map (ε := Err) f (.ok a) = .ok (f a) := rfl

theorem exceptMap_error {α β : Type} (f : α → β) (e : Err) :
    Except.map (α := α) (β := β) f (.error e) = .error e := rfl

theorem drop_take_one (l : List Bool) (s : Nat) (h : s < l.length) :
    (l.drop s).take 1 = [l.getD s false] := by
  rw [List.drop_eq_getElem_cons h]
  simp only [List.take_succ_cons, List.take_zero, List.getD_eq_getElem?_getD,
    List.getElem?_eq_getElem h, Option.getD_some]

theorem length_natToBitsLE (v L : Nat) : (natToBitsLE v L).length = L := by
  induction L generalizing v with
  | zero => rfl
  | succ L ih => simp [natToBitsLE, ih]

theorem length_uintBits (v L : Nat) : (uintBits v L).length = L := by
  simp [uintBits, length_natToBitsLE]

theorem bitsFromLE_natToBitsLE (L v : Nat) (h : v < 2 ^ L) :
    bitsFromLE (natToBitsLE v L) = v := by
  induction L generalizing v with
  | zero => simp [natToBitsLE, bitsFromLE]; omega
  | succ L ih =>
    have hv : v / 2 < 2 ^ L := by
      have : v < 2 ^ L * 2 := by rw [← pow_succ]; exact h
      omega
    have hmod : v % 2 = 0 ∨ v % 2 = 1 := Nat.mod_two_eq_zero_or_one v
    simp only [natToBitsLE, bitsFromLE, ih (v / 2) hv]
    rcases hmod with hm | hm <;> simp [hm] <;> omega

theorem bitsToNat_append_singleton (xs : List Bool) (b : Bool) :
    bitsToNat (xs ++ [b]) = 2 * bitsToNat xs + (if b then 1 else 0) := by
  simp [bitsToNat, List.foldl_append]

theorem bitsToNat_reverse (le : List Bool) : bitsToNat le.reverse = bitsFromLE le := by
  induction le with
  | nil => rfl
  | cons b bs ih =>
    simp only [List.reverse_cons, bitsFromLE, bitsToNat_append_singleton, ih]
    omega

theorem bitsToNat_uintBits (v L : Nat) (h : v < 2 ^ L) :
    bitsToNat (uintBits v L) = v := by
  rw [uintBits, bitsToNat_reverse, bitsFromLE_natToBitsLE L v h]

theorem bitsFromLE_lt (le : List Bool) : bitsFromLE le < 2 ^ le.length := by
  induction le with
  | nil => simp [bitsFromLE]
  | cons b bs ih =>
    simp only [bitsFromLE, List.length_cons, pow_succ]
    cases b <;> simp <;> omega

theorem bitsToNat_lt (bs : List Bool) : bitsToNat bs < 2 ^ bs.length := by
  have h := bitsFromLE_lt bs.reverse
  rw [← List.reverse_reverse bs, bitsToNat_reverse]
  simpa using h

/-! ### C10 — default (zero) construction -/

/-- C10: constructing with `value = None` and a target length `L` yields
the all-zeros vector of length `L` (its `.bin` is `L` zero characters);
with no value and no length it yields the zero-length vector. -/
theorem C10_default_zero_construction :
    (∀ (L : Nat) (signed : Bool),
      VerilogBits.init .pyNone (some L) signed = .ok ⟨List.replicate L false⟩) ∧
    (∀ L : Nat,
      VerilogBits.bin ⟨List.replicate L false⟩ = String.mk (List.replicate L '0')) ∧
    (∀ signed : Bool, VerilogBits.init .pyNone none signed = .ok ⟨[]⟩) := by
  refine ⟨fun L signed => ?_, fun L => ?_, fun signed => rfl⟩
  · cases L with
    | zero => rfl
    | succ L => simp [VerilogBits.init]
  · simp [VerilogBits.bin, List.map_replicate]

/-! ### C8 — disabled operation surface -/

/-- C8: every ordering comparison, arithmetic operator, bitwise logical
operator, and implicit integer conversion on a `VerilogBits` fails
unconditionally with a labelled `TypeError` (the realization of the
spec's `UnsupportedOperation`), independent of the operand. -/
theorem C8_disabled_operations (v : VerilogBits) (other : PyVal) :
    (∃ m, v.lt other = .error (.typeError m)) ∧
    (∃ m, v.le other = .error (.typeError m)) ∧
    (∃ m, v.gt other = .error (.typeError m)) ∧
    (∃ m, v.ge other = .error (.typeError m)) ∧
    (∃ m, v.add other = .error (.typeError m)) ∧
    (∃ m, v.sub other = .error (.typeError m)) ∧
    (∃ m, v.mul other = .error (.typeError m)) ∧
    (∃ m, v.truediv other = .error (.typeError m)) ∧
    (∃ m, v.andOp other = .error (.typeError m)) ∧
    (∃ m, v.orOp other = .error (.typeError m)) ∧
    (∃ m, v.xorOp other = .error (.typeError m)) ∧
    (∃ m, v.invert = .error (.typeError m)) ∧
    (∃ m, v.toInt = .error (.typeError m)) := by
  repeat constructor

/-! ### C7 — concatenation -/

theorem concatData_map_vb (args : List VerilogBits) :
    concatData (args.map PyVal.vb) = .ok (args.map VerilogBits.data).flatten := by
  induction args with
  | nil => rfl
  | cons a rest ih => simp [concatData, ih, exceptMap_ok]

theorem concatData_has_other (args : List PyVal) (t : String)
    (h : PyVal.other t ∈ args) : ∃ m, concatData args = .error (.typeError m) := by
  induction args with
  | nil => cases h
  | cons a rest ih =>
    cases a with
    | other s => exact ⟨"Argument is not a VerilogBits instance.", rfl⟩
    | vb w =>
      have hm : PyVal.other t ∈ rest := by
        rcases List.mem_cons.mp h with h' | h'
        · cases h'
        · exact h'
      obtain ⟨m, hm'⟩ := ih hm
      exact ⟨m, by simp [concatData, hm', exceptMap_error]⟩

/-- C7: concatenating two or more `VerilogBits` arguments yields a new
instance whose buffer is the arguments' buffers laid end to end, first
argument leftmost (highest-order bits), with length the sum of the
argument lengths; any non-`VerilogBits` argument makes the call fail
with the `TypeError` that realizes the spec's `TypeMismatch`. -/
theorem C7_concat :
    (∀ args : List VerilogBits, 2 ≤ args.length →
      ∃ r, VerilogBits.concat (args.map PyVal.vb) = .ok r ∧
        r.data = (args.map VerilogBits.data).flatten ∧
        r.data.length = (args.map (fun a => a.data.length)).sum) ∧
    (∀ (args : List PyVal) (t : String), PyVal.other t ∈ args →
      ∃ m, VerilogBits.concat args = .error (.typeError m)) := by
  constructor
  · intro args h2
    refine ⟨⟨(args.map VerilogBits.data).flatten⟩, ?_, rfl, ?_⟩
    · simp [VerilogBits.concat, concatData_map_vb, exceptMap_ok]
    · simp [List.length_flatten, Function.comp_def]
  · intro args t h
    obtain ⟨m, hm⟩ := concatData_has_other args t h
    exact ⟨m, by simp [VerilogBits.concat, hm, exceptMap_error]⟩

/-- Witness for C7 at a concrete three-argument call, matching the
spec's example `concat("1111", "0000", "1010") = "111100001010"`. -/
theorem C7_concat_witness :
    ∃ r, VerilogBits.concat
        [PyVal.vb ⟨[true, true, true, true]⟩,
         PyVal.vb ⟨[false, false, false, false]⟩,
         PyVal.vb ⟨[true, false, true, false]⟩] = .ok r ∧
      r.data = [true, true, true, true, false, false, false, false,
                true, false, true, false] ∧
      r.data.length = 12 := by
  obtain ⟨r, h1, h2, h3⟩ :=
    C7_concat.1 [⟨[true, true, true, true]⟩, ⟨[false, false, false, false]⟩,
                 ⟨[true, false, true, false]⟩] (by decide)
  exact ⟨r, h1, by rw [h2]; rfl, by rw [h3]; rfl⟩

/-! ### C6 — integer round trip -/

theorem isEmpty_false_of_length_pos (l : List Bool) (h : 0 < l.length) :
    l.isEmpty = false := by
  cases l with
  | nil => simp at h
  | cons a t => rfl

theorem init_int_unsigned (v : Int) (L : Nat) :
    VerilogBits.init (.int v) (some (L + 1)) false =
      if v < 0 then
        .error (.creationError "uint cannot be initialised by a negative number.")
      else if v ≥ 2 ^ (L + 1) then
        .error (.creationError "uint is too large for a bitstring of this length.")
      else .ok ⟨uintBits v.toNat (L + 1)⟩ := by
  simp only [VerilogBits.init, bitArrayUint]
  by_cases h : v < 0
  · simp [h, exceptMap_error]
  · by_cases h2 : v ≥ 2 ^ (L + 1)
    · simp [h, h2, exceptMap_error]
    · simp [h, h2, exceptMap_ok]

theorem init_int_signed (v : Int) (L : Nat) :
    VerilogBits.init (.int v) (some (L + 1)) true =
      if v < -(2 ^ L) ∨ v > 2 ^ L - 1 then
        .error (.creationError "int is too large for a bitstring of this length.")
      else .ok ⟨uintBits (v.emod (2 ^ (L + 1))).toNat (L + 1)⟩ := by
  simp only [VerilogBits.init, bitArrayInt, Nat.add_sub_cancel]
  by_cases h : v < -(2 : Int) ^ L ∨ v > 2 ^ L - 1
  · simp [h, exceptMap_error]
  · simp [h, exceptMap_ok]

/-- C6: integer construction at width `L ≥ 1` succeeds exactly on the
unsigned range `[0, 2^L - 1]` (respectively the signed two's-complement
range `[-2^(L-1), 2^(L-1) - 1]`), the `.uint` (resp. `.sint`) accessor
then returns the constructing integer, and an out-of-range integer
fails with the `CreationError` realizing the spec's `OutOfRange`. -/
theorem C6_integer_round_trip (L : Nat) (v : Int) (hL : 1 ≤ L) :
    ((∃ r, VerilogBits.init (.int v) (some L) false = .ok r) ↔
      0 ≤ v ∧ v ≤ 2 ^ L - 1) ∧
    (∀ r, VerilogBits.init (.int v) (some L) false = .ok r →
      ∃ u, r.uint = .ok u ∧ (u : Int) = v) ∧
    ((∃ r, VerilogBits.init (.int v) (some L) true = .ok r) ↔
      -(2 ^ (L - 1)) ≤ v ∧ v ≤ 2 ^ (L - 1) - 1) ∧
    (∀ r, VerilogBits.init (.int v) (some L) true = .ok r → r.sint = .ok v) ∧
    (∀ e, VerilogBits.init (.int v) (some L) false = .error e →
      ∃ m, e = .creationError m) ∧
    (∀ e, VerilogBits.init (.int v) (some L) true = .error e →
      ∃ m, e = .creationError m) := by
  obtain ⟨L', rfl⟩ : ∃ L', L = L' + 1 := ⟨L - 1, by omega⟩
  simp only [Nat.add_sub_cancel, init_int_unsigned, init_int_signed]
  have hA : ((2 ^ L' : Nat) : Int) = 2 ^ L' := by push_cast; ring
  have hB : ((2 ^ (L' + 1) : Nat) : Int) = 2 ^ (L' + 1) := by push_cast; ring
  have hps : (2 : Int) ^ (L' + 1) = 2 ^ L' * 2 := pow_succ 2 L'
  have hpos : (0 : Int) < 2 ^ L' := by positivity
  refine ⟨⟨?_, ?_⟩, ?_, ⟨?_, ?_⟩, ?_, ?_, ?_⟩
  · rintro ⟨r, hr⟩
    split_ifs at hr with h0 h1
    constructor <;> omega
  · rintro ⟨h0, h1⟩
    refine ⟨⟨uintBits v.toNat (L' + 1)⟩, ?_⟩
    rw [if_neg (by omega), if_neg (by omega)]
  · intro r hr
    split_ifs at hr with h0 h1
    cases hr
    · have hlen : (uintBits v.toNat (L' + 1)).length = L' + 1 := length_uintBits ..
      have hne : (uintBits v.toNat (L' + 1)).isEmpty = false :=
        isEmpty_false_of_length_pos _ (by omega)
      have hvn : v.toNat < 2 ^ (L' + 1) := by
        have h4 : (v.toNat : Int) = v := Int.toNat_of_nonneg (by omega)
        omega
      refine ⟨v.toNat, ?_, Int.toNat_of_nonneg (by omega)⟩
      simp [VerilogBits.uint, hne, bitsToNat_uintBits _ _ hvn]
  · rintro ⟨r, hr⟩
    split_ifs at hr with h0
    push_neg at h0
    constructor <;> omega
  · rintro ⟨h0, h1⟩
    refine ⟨⟨uintBits (v.emod (2 ^ (L' + 1))).toNat (L' + 1)⟩, ?_⟩
    rw [if_neg (by omega)]
  · intro r hr
    split_ifs at hr with h0
    cases hr
    · push_neg at h0
      obtain ⟨hlo, hhi⟩ := h0
      have hm0 : 0 ≤ v.emod (2 ^ (L' + 1)) := Int.emod_nonneg v (by positivity)
      have hm1 : v.emod (2 ^ (L' + 1)) < 2 ^ (L' + 1) :=
        Int.emod_lt_of_pos v (by positivity)
      have hvn : (v.emod (2 ^ (L' + 1))).toNat < 2 ^ (L' + 1) := by omega
      have hlen : (uintBits (v.emod (2 ^ (L' + 1))).toNat (L' + 1)).length = L' + 1 :=
        length_uintBits ..
      have hne : (uintBits (v.emod (2 ^ (L' + 1))).toNat (L' + 1)).isEmpty = false :=
        isEmpty_false_of_length_pos _ (by omega)
      have hval :
          bitsToNat (uintBits (v.emod (2 ^ (L' + 1))).toNat (L' + 1)) =
            (v.emod (2 ^ (L' + 1))).toNat := bitsToNat_uintBits _ _ hvn
      by_cases hsgn : 0 ≤ v
      · have hemod : v.emod (2 ^ (L' + 1)) = v :=
          Int.emod_eq_of_lt hsgn (by omega)
        have hcond : (v.emod (2 ^ (L' + 1))).toNat < 2 ^ ((L' + 1) - 1) := by
          simp only [Nat.add_sub_cancel]
          omega
        simp only [VerilogBits.sint, hne, Bool.false_eq_true, if_false, hval,
          hlen, hcond, if_true, Except.ok.injEq]
        omega
      · have h1' : (0 : Int) ≤ v + 2 ^ (L' + 1) := by omega
        have h2' : v + 2 ^ (L' + 1) < 2 ^ (L' + 1) := by omega
        have hemod : v.emod (2 ^ (L' + 1)) = v + 2 ^ (L' + 1) := by
          have hself := Int.add_mul_emod_self_left (a := v) (b := 2 ^ (L' + 1)) (c := 1)
          rw [mul_one] at hself
          show v % (2 ^ (L' + 1)) = v + 2 ^ (L' + 1)
          rw [← hself]
          exact Int.emod_eq_of_lt h1' h2'
        have hcond : ¬ (v.emod (2 ^ (L' + 1))).toNat < 2 ^ ((L' + 1) - 1) := by
          simp only [Nat.add_sub_cancel]
          omega
        simp only [VerilogBits.sint, hne, Bool.false_eq_true, if_false, hval,
          hlen, hcond, Except.ok.injEq]
        omega
  · intro e he
    split_ifs at he with h0 h1
    all_goals (cases he; exact ⟨_, rfl⟩)
  · intro e he
    split_ifs at he with h0
    all_goals (cases he; exact ⟨_, rfl⟩)

/-- Witness for C6 at width 4: unsigned 11 and signed -5 round-trip. -/
theorem C6_integer_round_trip_witness :
    (∃ r, VerilogBits.init (.int 11) (some 4) false = .ok r) ∧
    (∃ r, VerilogBits.init (.int (-5)) (some 4) true = .ok r) := by
  have h1 := (C6_integer_round_trip 4 11 (by norm_num)).1
  have h2 := (C6_integer_round_trip 4 (-5) (by norm_num)).2.2.1
  exact ⟨h1.mpr (by norm_num), h2.mpr (by norm_num)⟩

/-! ### C5 — string construction reconciliation -/

theorem getD_replicate (n j : Nat) (b d : Bool) (h : j < n) :
    (List.replicate n b).getD j d = b := by
  simp [List.getD_eq_getElem?_getD, List.getElem?_replicate, h]

theorem bin_length (v : VerilogBits) : (VerilogBits.bin v).length = v.data.length := by
  show (String.mk (v.data.map (fun b => if b then '1' else '0'))).length = v.data.length
  show (v.data.map (fun b => if b then '1' else '0')).length = v.data.length
  exact List.length_map ..

/-- C5 counterexample: parsing the binary literal `0b1` with target
length 0 keeps the whole literal — `self._data[-0:]` is the entire
buffer — so `.bin` has 1 character, not the 0 characters the claim's
`L >= 0` quantification demands. -/
theorem C5_string_construction_cex :
    VerilogBits.init (.str (.bin [true])) (some 0) false = .ok ⟨[true]⟩ ∧
    (VerilogBits.bin ⟨[true]⟩).length ≠ 0 := by
  exact ⟨rfl, by decide⟩

/-- C5 (amended): for a radix-prefixed literal and target length `L >= 1`
the construction keeps the low-order `L` bits when the natural width
exceeds `L`, zero-extends on the left when it is smaller, and leaves the
literal unchanged when equal or when `L` is omitted — `.bin` then has
exactly `L` (resp. natural-width) characters; but for `L = 0` with a
nonempty literal the truncation branch keeps the whole literal. -/
theorem C5_string_construction_amended (lit : StrLit) (L : Nat) :
    (1 ≤ L → L < (parseLit lit).length →
      ∃ r, VerilogBits.init (.str lit) (some L) false = .ok r ∧
        r.data = (parseLit lit).drop ((parseLit lit).length - L) ∧
        (VerilogBits.bin r).length = L ∧
        (∀ k, k < L → r.hwBit k = VerilogBits.hwBit ⟨parseLit lit⟩ k)) ∧
    ((parseLit lit).length < L →
      ∃ r, VerilogBits.init (.str lit) (some L) false = .ok r ∧
        r.data = List.replicate (L - (parseLit lit).length) false ++ parseLit lit ∧
        (VerilogBits.bin r).length = L ∧
        (∀ k, k < (parseLit lit).length →
          r.hwBit k = VerilogBits.hwBit ⟨parseLit lit⟩ k) ∧
        (∀ k, (parseLit lit).length ≤ k → k < L → r.hwBit k = false)) ∧
    ((parseLit lit).length = L →
      VerilogBits.init (.str lit) (some L) false = .ok ⟨parseLit lit⟩) ∧
    (VerilogBits.init (.str lit) none false = .ok ⟨parseLit lit⟩ ∧
      (VerilogBits.bin ⟨parseLit lit⟩).length = (parseLit lit).length) ∧
    (L = 0 → 0 < (parseLit lit).length →
      VerilogBits.init (.str lit) (some 0) false = .ok ⟨parseLit lit⟩) := by
  refine ⟨?_, ?_, ?_, ⟨rfl, bin_length _⟩, ?_⟩
  · intro hL hlt
    have h1 : (parseLit lit).length > L := hlt
    have hL0 : L ≠ 0 := by omega
    refine ⟨⟨(parseLit lit).drop ((parseLit lit).length - L)⟩, ?_, rfl, ?_, ?_⟩
    · simp only [VerilogBits.init, if_pos h1, pyTail, if_neg hL0]
    · rw [bin_length]
      simp only [List.length_drop]
      omega
    · intro k hk
      simp only [VerilogBits.hwBit, List.length_drop]
      rw [getD_drop]
      congr 1
      omega
  · intro hlt
    have h1 : ¬ (parseLit lit).length > L := by omega
    have h2 : (parseLit lit).length < L := hlt
    refine ⟨⟨List.replicate (L - (parseLit lit).length) false ++ parseLit lit⟩,
      ?_, rfl, ?_, ?_, ?_⟩
    · simp only [VerilogBits.init, if_neg h1, if_pos h2]
    · rw [bin_length]
      simp only [List.length_append, List.length_replicate]
      omega
    · intro k hk
      simp only [VerilogBits.hwBit, List.length_append, List.length_replicate]
      have hlen : L - (parseLit lit).length + (parseLit lit).length = L := by omega
      rw [hlen]
      rw [getD_append_right _ _ _ (by simp [List.length_replicate]; omega)]
      congr 1
      simp only [List.length_replicate]
      omega
    · intro k hk hkL
      simp only [VerilogBits.hwBit, List.length_append, List.length_replicate]
      have hlen : L - (parseLit lit).length + (parseLit lit).length = L := by omega
      rw [hlen]
      rw [getD_append_left _ _ _ (by simp [List.length_replicate]; omega)]
      exact getD_replicate _ _ _ _ (by omega)
  · intro heq
    have h1 : ¬ (parseLit lit).length > L := by omega
    have h2 : ¬ (parseLit lit).length < L := by omega
    simp only [VerilogBits.init, if_neg h1, if_neg h2]
  · intro hL hn
    have h1 : (parseLit lit).length > 0 := hn
    simp only [VerilogBits.init, if_pos h1, pyTail, if_pos rfl, if_true]

/-- Witness for C5 at the spec's own examples: `0b11110000` at length 4
truncates to the low four bits and `0b1111` at length 8 zero-extends. -/
theorem C5_string_construction_amended_witness :
    (∃ r, VerilogBits.init
        (.str (.bin [true, true, true, true, false, false, false, false]))
        (some 4) false = .ok r ∧
      r.data = [false, false, false, false]) ∧
    (∃ r, VerilogBits.init (.str (.bin [true, true, true, true]))
        (some 8) false = .ok r ∧
      r.data = [false, false, false, false, true, true, true, true]) := by
  constructor
  · obtain ⟨r, h1, h2, h3, h4⟩ :=
      (C5_string_construction_amended
        (.bin [true, true, true, true, false, false, false, false]) 4).1
        (by decide) (by decide)
    exact ⟨r, h1, by rw [h2]; rfl⟩
  · obtain ⟨r, h1, h2, h3, h4, h5⟩ :=
      (C5_string_construction_amended (.bin [true, true, true, true]) 8).2.1
        (by decide)
    exact ⟨r, h1, by rw [h2]; rfl⟩

/-! ### C1 — ranged read -/

theorem exceptBind_ok {α β : Type} (a : α) (f : α → Except Err β) :
    (Except.ok a >>= f) = f a := rfl

theorem exceptBind_error {α β : Type} (e : Err) (f : α → Except Err β) :
    ((Except.error e : Except Err α) >>= f) = .error e := rfl

theorem getSlice_step_some (v : VerilogBits) (msb lsb st : Int) :
    v.getSlice msb lsb (some st) =
      .error (.valueError "Step is not supported in Verilog-style slicing.") := rfl

theorem getSlice_none_eq (v : VerilogBits) (msb lsb : Int) :
    v.getSlice msb lsb none =
      match v.parseVerilogSlice msb lsb with
      | .error e => .error e
      | .ok se => .ok ⟨(v.data.drop se.1).take (se.2 - se.1)⟩ := by
  cases h : v.parseVerilogSlice msb lsb with
  | error e =>
    show (v.parseVerilogSlice msb lsb >>= _) = _
    rw [h, exceptBind_error]
  | ok se =>
    obtain ⟨a, b⟩ := se
    show (v.parseVerilogSlice msb lsb >>= _) = _
    rw [h, exceptBind_ok]
    rfl

theorem parseVerilogSlice_ok (v : VerilogBits) (msb lsb : Int)
    (h0 : 0 ≤ lsb) (h1 : lsb ≤ msb) (h2 : msb ≤ (v.data.length : Int) - 1) :
    v.parseVerilogSlice msb lsb =
      .ok (((v.data.length : Int) - 1 - msb).toNat,
           ((v.data.length : Int) - 1 - lsb + 1).toNat) := by
  simp only [VerilogBits.parseVerilogSlice]
  rw [if_neg (by omega), if_pos (by refine ⟨by omega, by omega, by omega, by omega⟩)]

/-- C1: a ranged read `v[msb:lsb]` with `0 <= lsb <= msb <= len(v)-1` and
no step returns a fresh `VerilogBits` of length `msb - lsb + 1` holding
internal storage positions `len(v)-1-msb` up to (excluding) `len(v)-lsb`,
which are exactly hardware bits `msb` down to `lsb`; `lsb > msb` fails
with the `ValueError` realizing `InvalidRange` ("LSB cannot be greater
than MSB"), a requested step fails with the `ValueError` realizing
`InvalidRange`, and an index outside `[0, len(v)-1]` fails with the
`IndexError` realizing `IndexOutOfRange`. -/
theorem C1_ranged_read (v : VerilogBits) (msb lsb : Int) (st : Option Int) :
    (st = none → 0 ≤ lsb → lsb ≤ msb → msb ≤ (v.data.length : Int) - 1 →
      ∃ r, v.getSlice msb lsb st = .ok r ∧
        (r.data.length : Int) = msb - lsb + 1 ∧
        r.data = (v.data.drop (((v.data.length : Int) - 1 - msb).toNat)).take
          ((msb - lsb + 1).toNat) ∧
        (∀ k : Nat, (k : Int) ≤ msb - lsb →
          r.hwBit k = v.hwBit (lsb.toNat + k))) ∧
    (st = none → lsb > msb →
      v.getSlice msb lsb st =
        .error (.valueError "LSB cannot be greater than MSB in Verilog-style slicing.")) ∧
    (∀ s, st = some s →
      v.getSlice msb lsb st =
        .error (.valueError "Step is not supported in Verilog-style slicing.")) ∧
    (st = none → lsb ≤ msb → ¬ (0 ≤ lsb ∧ msb ≤ (v.data.length : Int) - 1) →
      ∃ m, v.getSlice msb lsb st = .error (.indexError m)) := by
  refine ⟨?_, ?_, ?_, ?_⟩
  · rintro rfl h0 h1 h2
    rw [getSlice_none_eq, parseVerilogSlice_ok v msb lsb h0 h1 h2]
    have hcount : ((v.data.length : Int) - 1 - lsb + 1).toNat -
        ((v.data.length : Int) - 1 - msb).toNat = (msb - lsb + 1).toNat := by omega
    refine ⟨_, rfl, ?_, ?_, ?_⟩
    · simp only [List.length_take, List.length_drop]
      omega
    · simp only [hcount]
    · intro k hk
      simp only [VerilogBits.hwBit, List.length_take, List.length_drop]
      have hm : min (((v.data.length : Int) - 1 - lsb + 1).toNat -
          ((v.data.length : Int) - 1 - msb).toNat)
          (v.data.length - ((v.data.length : Int) - 1 - msb).toNat) =
          (msb - lsb + 1).toNat := by omega
      rw [hm]
      rw [getD_take _ _ _ (by omega), getD_drop]
      congr 1
      omega
  · rintro rfl hgt
    rw [getSlice_none_eq]
    simp only [VerilogBits.parseVerilogSlice, if_pos hgt]
  · rintro s rfl
    exact getSlice_step_some ..
  · rintro rfl hle hnb
    rw [getSlice_none_eq]
    simp only [VerilogBits.parseVerilogSlice]
    rw [if_neg (by omega), if_neg (by intro hc; exact hnb ⟨hc.2.2.1, hc.2.1⟩)]
    exact ⟨_, rfl⟩

/-- Witness for C1 on the spec's 8-bit example `10101010`: the read
`[7:4]` yields `1010`, `[4:5]` hits the LSB/MSB check, `[8:0]` is out of
bounds, and a stepped slice is rejected. -/
theorem C1_ranged_read_witness :
    (∃ r, VerilogBits.getSlice
        ⟨[true, false, true, false, true, false, true, false]⟩ 7 4 none = .ok r ∧
      (r.data.length : Int) = 4) ∧
    (VerilogBits.getSlice ⟨[true, false, true, false, true, false, true, false]⟩
        4 5 none =
      .error (.valueError "LSB cannot be greater than MSB in Verilog-style slicing.")) ∧
    (∃ m, VerilogBits.getSlice ⟨[true, false, true, false, true, false, true, false]⟩
        8 0 none = .error (.indexError m)) ∧
    (VerilogBits.getSlice ⟨[true, false, true, false, true, false, true, false]⟩
        7 4 (some 2) =
      .error (.valueError "Step is not supported in Verilog-style slicing.")) := by
  refine ⟨?_, ?_, ?_, ?_⟩
  · obtain ⟨r, h1, h2, h3, h4⟩ :=
      (C1_ranged_read ⟨[true, false, true, false, true, false, true, false]⟩
        7 4 none).1 rfl (by norm_num) (by norm_num) (by norm_num)
    exact ⟨r, h1, by rw [h2]; norm_num⟩
  · exact (C1_ranged_read ⟨[true, false, true, false, true, false, true, false]⟩
      4 5 none).2.1 rfl (by norm_num)
  · exact (C1_ranged_read ⟨[true, false, true, false, true, false, true, false]⟩
      8 0 none).2.2.2 rfl (by norm_num) (by norm_num)
  · exact (C1_ranged_read ⟨[true, false, true, false, true, false, true, false]⟩
      7 4 (some 2)).2.2.1 2 rfl

/-! ### C2 — single-bit read -/

/-- C2 counterexample: on the two-bit vector `10`, the read `v[0]`
returns the bit at storage position 0 — the most-significant side — and
not hardware bit 0 (the LSB), so the claimed hardware convention is
false; and the out-of-range read `v[5]` does not fail at all (the
integer key is wrapped in a Python slice), it returns an empty vector. -/
theorem C2_single_bit_read_cex :
    (VerilogBits.getInt ⟨[true, false]⟩ 0).data ≠
      [VerilogBits.hwBit ⟨[true, false]⟩ 0] ∧
    (VerilogBits.getInt ⟨[true, false]⟩ 5).data = [] := by
  constructor <;> decide

/-- C2 (amended): `v[i]` evaluates `self._data[i:i+1]` under Python
slice semantics: for `0 <= i < len(v)` it returns a length-1
`VerilogBits` holding the bit at storage position `i` — hardware bit
`len(v)-1-i`, i.e. index 0 is the MSB side; an out-of-range or `-1`
index never fails with `IndexOutOfRange` but yields the empty vector;
a negative index in `[-len(v), -2]` yields the bit at storage position
`i + len(v)`. -/
theorem C2_single_bit_read_amended (v : VerilogBits) (i : Int) :
    (0 ≤ i → i < (v.data.length : Int) →
      (v.getInt i).data = [v.data.getD i.toNat false] ∧
      (v.getInt i).data.length = 1 ∧
      v.data.getD i.toNat false = v.hwBit (v.data.length - 1 - i.toNat)) ∧
    ((v.data.length : Int) ≤ i → (v.getInt i).data = []) ∧
    (i = -1 → (v.getInt i).data = []) ∧
    (i < -(v.data.length : Int) → (v.getInt i).data = []) ∧
    (-(v.data.length : Int) ≤ i → i ≤ -2 →
      (v.getInt i).data = [v.data.getD (i + (v.data.length : Int)).toNat false]) := by
  simp only [VerilogBits.getInt, pySliceGet]
  refine ⟨?_, ?_, ?_, ?_, ?_⟩
  · intro h0 h1
    split_ifs with c1 c2 c3
    all_goals try (exfalso; omega)
    have h5 : (min (i + 1) (v.data.length : Int) - max i 0).toNat = 1 := by omega
    have h6 : (max i 0).toNat = i.toNat := by omega
    rw [h5, h6, drop_take_one _ _ (by omega)]
    refine ⟨rfl, rfl, ?_⟩
    simp only [VerilogBits.hwBit]
    congr 1
    omega
  · intro h0
    split_ifs with c1 c2 c3
    all_goals first | rfl | (exfalso; omega)
  · rintro rfl
    split_ifs with c1 c2 c3
    all_goals first | rfl | (exfalso; omega)
  · intro h0
    split_ifs with c1 c2 c3
    all_goals first | rfl | (exfalso; omega)
  · intro h0 h1
    split_ifs with c1 c2 c3
    all_goals try (exfalso; omega)
    have h5 : (min (i + 1 + (v.data.length : Int)) (v.data.length : Int) -
        max (i + (v.data.length : Int)) 0).toNat = 1 := by omega
    have h6 : (max (i + (v.data.length : Int)) 0).toNat =
        (i + (v.data.length : Int)).toNat := by omega
    rw [h5, h6, drop_take_one _ _ (by omega)]

/-- Witness for the amended C2 on the vector `10`: `v[1]` is the storage
bit at position 1 and `v[5]` is empty. -/
theorem C2_single_bit_read_amended_witness :
    (VerilogBits.getInt ⟨[true, false]⟩ 1).data = [false] ∧
    (VerilogBits.getInt ⟨[true, false]⟩ 5).data = [] := by
  obtain ⟨ha, -, -, -, -⟩ := C2_single_bit_read_amended ⟨[true, false]⟩ 1
  obtain ⟨-, hb, -, -, -⟩ := C2_single_bit_read_amended ⟨[true, false]⟩ 5
  obtain ⟨h3, -, -⟩ := ha (by norm_num) (by norm_num)
  exact ⟨by rw [h3]; rfl, hb (by norm_num)⟩

/-! ### C3 and C4 — indexed and ranged writes -/

theorem setSlice_ok_eq (v : VerilogBits) (msb lsb : Int) (value : InitValue)
    (nv : VerilogBits) (hn : VerilogBits.init value none false = .ok nv)
    (s e : Nat) (hp : v.parseVerilogSlice msb lsb = .ok (s, e)) :
    v.setSlice msb lsb none value =
      .ok ⟨v.data.take s ++ nv.data ++ v.data.drop e⟩ := by
  show (VerilogBits.init value none false >>= _) = _
  rw [hn, exceptBind_ok]
  show (v.parseVerilogSlice msb lsb >>= _) = _
  rw [hp, exceptBind_ok]
  rfl

theorem setInt_ok_eq (v : VerilogBits) (i : Int) (value : InitValue)
    (nv : VerilogBits) (hn : VerilogBits.init value none false = .ok nv)
    (hk : ¬ ((if i < 0 then i + (v.data.length : Int) else i) < 0 ∨
      (if i < 0 then i + (v.data.length : Int) else i) ≥ (v.data.length : Int))) :
    v.setInt i value =
      .ok ⟨v.data.take (if i < 0 then i + (v.data.length : Int) else i).toNat ++
        nv.data ++
        v.data.drop ((if i < 0 then i + (v.data.length : Int) else i).toNat + 1)⟩ := by
  show (VerilogBits.init value none false >>= _) = _
  rw [hn, exceptBind_ok]
  show (if ((if i < 0 then i + (v.data.length : Int) else i) < 0 ∨
      (if i < 0 then i + (v.data.length : Int) else i) ≥ (v.data.length : Int))
    then _ else _) = _
  rw [if_neg hk]
  rfl

/-- C3 counterexample: the ranged write `v[1:1] = 0b11` on a 2-bit
vector succeeds and splices two bits over the one addressed bit, so the
vector's length changes from 2 to 3 — a successful write does not
preserve the construction-time length. -/
theorem C3_write_frame_cex :
    VerilogBits.setSlice ⟨[false, false]⟩ 1 1 none (.str (.bin [true, true])) =
      .ok ⟨[true, true, false]⟩ ∧
    ([true, true, false] : List Bool).length ≠ ([false, false] : List Bool).length := by
  exact ⟨rfl, by decide⟩

/-- C3 (amended): a successful write whose normalized value width equals
the number of addressed bits — `msb - lsb + 1` for a ranged write, 1 for
a single-bit write — keeps the length and every bit outside the
addressed range, and the addressed bits become the normalized value's
bits.  (The in-place mutation itself is modelled by returning the
updated object.) -/
theorem C3_write_frame_amended (v : VerilogBits) (value : InitValue)
    (nv : VerilogBits) (hn : VerilogBits.init value none false = .ok nv) :
    (∀ msb lsb : Int, 0 ≤ lsb → lsb ≤ msb → msb ≤ (v.data.length : Int) - 1 →
      (nv.data.length : Int) = msb - lsb + 1 →
      ∃ r, v.setSlice msb lsb none value = .ok r ∧
        r.data.length = v.data.length ∧
        (∀ j : Nat, j < v.data.length → ((j : Int) < lsb ∨ msb < (j : Int)) →
          r.hwBit j = v.hwBit j) ∧
        (∀ k : Nat, (k : Int) ≤ msb - lsb → r.hwBit (lsb.toNat + k) = nv.hwBit k)) ∧
    (∀ i pk : Int, pk = (if i < 0 then i + (v.data.length : Int) else i) →
      0 ≤ pk → pk < (v.data.length : Int) → nv.data.length = 1 →
      ∃ r, v.setInt i value = .ok r ∧
        r.data.length = v.data.length ∧
        (∀ j : Nat, j < v.data.length → j ≠ pk.toNat →
          r.data.getD j false = v.data.getD j false) ∧
        r.data.getD pk.toNat false = nv.data.getD 0 false) := by
  constructor
  · intro msb lsb h0 h1 h2 hw
    refine ⟨_, setSlice_ok_eq v msb lsb value nv hn _ _
      (parseVerilogSlice_ok v msb lsb h0 h1 h2), ?_, ?_, ?_⟩
    · simp only [List.length_append, List.length_take, List.length_drop]
      omega
    · intro j hj hout
      have hlen : (v.data.take (((v.data.length : Int) - 1 - msb).toNat) ++
          (nv.data ++ v.data.drop (((v.data.length : Int) - 1 - lsb + 1).toNat))).length =
          v.data.length := by
        simp only [List.length_append, List.length_take, List.length_drop]
        omega
      simp only [VerilogBits.hwBit, List.append_assoc, hlen]
      rcases hout with hlt | hgt
      · -- hardware bit below lsb: storage position at or past the splice end
        rw [getD_append_right _ _ _ (by simp only [List.length_take]; omega)]
        rw [getD_append_right _ _ _ (by simp only [List.length_take]; omega)]
        rw [getD_drop]
        congr 1
        simp only [List.length_take]
        omega
      · -- hardware bit above msb: storage position before the splice start
        rw [getD_append_left _ _ _ (by simp only [List.length_take]; omega)]
        rw [getD_take _ _ _ (by omega)]
    · intro k hk
      have hlen : (v.data.take (((v.data.length : Int) - 1 - msb).toNat) ++
          (nv.data ++ v.data.drop (((v.data.length : Int) - 1 - lsb + 1).toNat))).length =
          v.data.length := by
        simp only [List.length_append, List.length_take, List.length_drop]
        omega
      simp only [VerilogBits.hwBit, List.append_assoc, hlen]
      rw [getD_append_right _ _ _ (by simp only [List.length_take]; omega)]
      rw [getD_append_left _ _ _ (by simp only [List.length_take]; omega)]
      congr 1
      simp only [List.length_take]
      omega
  · intro i pk hpk h0 h1 hw
    have hcond : ¬ ((if i < 0 then i + (v.data.length : Int) else i) < 0 ∨
        (if i < 0 then i + (v.data.length : Int) else i) ≥ (v.data.length : Int)) := by
      rw [← hpk]
      omega
    refine ⟨_, setInt_ok_eq v i value nv hn hcond, ?_, ?_, ?_⟩
    · simp only [List.length_append, List.length_take, List.length_drop, ← hpk]
      omega
    · intro j hj hne
      simp only [List.append_assoc, ← hpk]
      by_cases hlt : j < pk.toNat
      · rw [getD_append_left _ _ _ (by simp only [List.length_take]; omega)]
        rw [getD_take _ _ _ (by omega)]
      · rw [getD_append_right _ _ _ (by simp only [List.length_take]; omega)]
        rw [getD_append_right _ _ _ (by simp only [List.length_take]; omega)]
        rw [getD_drop]
        congr 1
        simp only [List.length_take]
        omega
    · -- the addressed storage position now holds the value's single bit
      simp only [List.append_assoc, ← hpk]
      rw [getD_append_right _ _ _ (by simp only [List.length_take]; omega)]
      rw [getD_append_left _ _ _ (by simp only [List.length_take]; omega)]
      congr 1
      simp only [List.length_take]
      omega

/-- Witness for the amended C3 at the spec's set-then-get example: on an
8-bit zero vector, `v[7:4] = 0b1111` keeps length 8 and leaves hardware
bits 3..0 untouched while setting bits 7..4. -/
theorem C3_write_frame_amended_witness :
    ∃ r, VerilogBits.setSlice ⟨List.replicate 8 false⟩ 7 4 none
        (.str (.bin [true, true, true, true])) = .ok r ∧
      r.data.length = 8 ∧
      r.hwBit 0 = false ∧ r.hwBit 7 = true := by
  have hn : VerilogBits.init (.str (.bin [true, true, true, true])) none false =
      .ok ⟨[true, true, true, true]⟩ := rfl
  obtain ⟨hA, -⟩ := C3_write_frame_amended ⟨List.replicate 8 false⟩
    (.str (.bin [true, true, true, true])) ⟨[true, true, true, true]⟩ hn
  obtain ⟨r, h1, h2, h3, h4⟩ := hA 7 4 (by norm_num) (by norm_num) (by decide)
    (by decide)
  refine ⟨r, h1, by rw [h2]; rfl, ?_, ?_⟩
  · have h5 := h3 0 (by decide) (by norm_num)
    rw [h5]
    decide
  · have h6 := h4 3 (by norm_num)
    rw [show ((4 : Int).toNat + 3) = 7 from rfl] at h6
    rw [h6]
    decide

/-- C4 counterexample: the ranged write `v[2:1] = 0b111` on a 4-bit
vector — a 3-bit normalized value for a 2-bit range — does not fail with
any width error: it succeeds, splicing the three bits over the two
addressed positions. -/
theorem C4_range_write_width_cex :
    VerilogBits.setSlice ⟨[false, false, false, false]⟩ 2 1 none
      (.str (.bin [true, true, true])) =
      .ok ⟨[false, true, true, true, false]⟩ := rfl

/-- C4 (amended): a ranged write first normalizes the value via the
construction contract with no target width, then performs no width
check at all: the normalized buffer replaces storage positions
`[len-1-msb, len-lsb)` verbatim, so a mismatched width changes the
vector's length by `width - (msb - lsb + 1)` instead of raising
`WidthMismatch`, and there is neither truncation nor padding. -/
theorem C4_range_write_splice_amended (v : VerilogBits) (msb lsb : Int)
    (value : InitValue) (nv : VerilogBits)
    (hn : VerilogBits.init value none false = .ok nv)
    (h0 : 0 ≤ lsb) (h1 : lsb ≤ msb) (h2 : msb ≤ (v.data.length : Int) - 1) :
    ∃ r, v.setSlice msb lsb none value = .ok r ∧
      r.data = v.data.take (((v.data.length : Int) - 1 - msb).toNat) ++ nv.data ++
        v.data.drop (((v.data.length : Int) - 1 - lsb + 1).toNat) ∧
      (r.data.length : Int) =
        (v.data.length : Int) - (msb - lsb + 1) + nv.data.length := by
  refine ⟨_, setSlice_ok_eq v msb lsb value nv hn _ _
    (parseVerilogSlice_ok v msb lsb h0 h1 h2), rfl, ?_⟩
  simp only [List.length_append, List.length_take, List.length_drop]
  omega

/-- Witness for the amended C4: writing the 1-bit value `0b1` over the
3-bit range `[3:1]` of a 4-bit vector shrinks it to 2 bits. -/
theorem C4_range_write_splice_amended_witness :
    ∃ r, VerilogBits.setSlice ⟨[false, false, false, false]⟩ 3 1 none
        (.str (.bin [true])) = .ok r ∧ (r.data.length : Int) = 2 := by
  obtain ⟨r, h1, h2, h3⟩ := C4_range_write_splice_amended
    ⟨[false, false, false, false]⟩ 3 1 (.str (.bin [true])) ⟨[true]⟩ rfl
    (by norm_num) (by norm_num) (by norm_num)
  exact ⟨r, h1, by rw [h3]; norm_num⟩

/-! ### C9 — memory-file serialization -/

theorem hexCharVal_hexDigitChar : ∀ n, n < 16 → hexCharVal (hexDigitChar n) = n := by
  decide

theorem hexDigitChar_isHexDigit : ∀ n, n < 16 → isHexDigit (hexDigitChar n) = true := by
  decide

theorem nibbles_lt (bs : List Bool) : ∀ x ∈ bitsToNibbles bs, x < 16 := by
  induction bs using bitsToNibbles.induct with
  | case1 a b c d rest ih =>
    intro x hx
    simp only [bitsToNibbles, List.mem_cons] at hx
    rcases hx with hx | hx
    · subst hx
      cases a <;> cases b <;> cases c <;> cases d <;> norm_num
    · exact ih x hx
  | case2 bs h =>
    intro x hx
    rw [bitsToNibbles.eq_def] at hx
    rcases bs with _ | ⟨a, _ | ⟨b, _ | ⟨c, _ | ⟨d, rest⟩⟩⟩⟩ <;> simp at hx
    exact absurd rfl (h a b c d rest)

theorem length_bitsToNibbles (bs : List Bool) (h : bs.length % 4 = 0) :
    (bitsToNibbles bs).length = bs.length / 4 := by
  induction bs using bitsToNibbles.induct with
  | case1 a b c d rest ih =>
    have hrest : rest.length % 4 = 0 := by
      simp only [List.length_cons] at h
      omega
    simp only [bitsToNibbles, List.length_cons, ih hrest]
    omega
  | case2 bs hno =>
    rcases bs with _ | ⟨a, _ | ⟨b, _ | ⟨c, _ | ⟨d, rest⟩⟩⟩⟩
    · rfl
    · simp at h
    · simp at h
    · simp at h
    · exact absurd rfl (hno a b c d rest)

theorem hexFold_eq_bitFold (bs : List Bool) (h : bs.length % 4 = 0) :
    ∀ acc : Nat,
      ((bitsToNibbles bs).map hexDigitChar).foldl
        (fun a c => 16 * a + hexCharVal c) acc =
      bs.foldl (fun a b => 2 * a + (if b then 1 else 0)) acc := by
  induction bs using bitsToNibbles.induct with
  | case1 a b c d rest ih =>
    intro acc
    have hrest : rest.length % 4 = 0 := by
      simp only [List.length_cons] at h
      omega
    have hnib : 8 * (if a then 1 else 0) + 4 * (if b then 1 else 0) +
        2 * (if c then 1 else 0) + (if d then 1 else 0) < 16 := by
      cases a <;> cases b <;> cases c <;> cases d <;> norm_num
    simp only [bitsToNibbles, List.map_cons, List.foldl_cons]
    rw [hexCharVal_hexDigitChar _ hnib, ih hrest]
    congr 1
    cases a <;> cases b <;> cases c <;> cases d <;> norm_num <;> ring
  | case2 bs hno =>
    rcases bs with _ | ⟨a, _ | ⟨b, _ | ⟨c, _ | ⟨d, rest⟩⟩⟩⟩
    · intro acc; rfl
    · simp at h
    · simp at h
    · simp at h
    · exact absurd rfl (hno a b c d rest)

/-- C9 counterexample: a 3-bit word (value 5) cannot be serialized in
hex mode at all — `bitstring`'s `.hex` raises for a length that is not a
multiple of four bits — where the claim promises a ceil(3/4) = 1 digit
output `"5"`. -/
theorem C9_serialization_cex :
    memWordText true ⟨[true, false, true]⟩ =
      .error (.interpretError
        "Cannot convert to hex unambiguously - not multiple of 4 bits.") := rfl

/-- C9 (amended): in hex mode a word serializes successfully exactly
when its length is a multiple of four; the output then has `length/4`
characters — zero-padded, each a bare hex digit, no `0x` marker — and
decodes back to the word's unsigned value; a length not divisible by
four fails with `InterpretError`.  In binary mode the output is always
the raw `length`-character bit string. -/
theorem C9_serialization_amended (v : VerilogBits) :
    (v.data.length % 4 = 0 →
      ∃ s, memWordText true v = .ok s ∧
        s.length = v.data.length / 4 ∧
        hexStringVal s = bitsToNat v.data ∧
        (∀ c, c ∈ s.data → isHexDigit c = true)) ∧
    (v.data.length % 4 ≠ 0 →
      ∃ m, memWordText true v = .error (.interpretError m)) ∧
    (∃ s, memWordText false v = .ok s ∧ s.length = v.data.length ∧
      s.data = v.data.map (fun b => if b then '1' else '0')) := by
  have hmemt : memWordText true v = v.hex := rfl
  have hmemf : memWordText false v = .ok v.bin := rfl
  refine ⟨?_, ?_, ?_⟩
  · intro h
    refine ⟨String.mk ((bitsToNibbles v.data).map hexDigitChar), ?_, ?_, ?_, ?_⟩
    · rw [hmemt]
      simp only [VerilogBits.hex]
      rw [if_neg (by omega)]
    · show ((bitsToNibbles v.data).map hexDigitChar).length = v.data.length / 4
      rw [List.length_map, length_bitsToNibbles v.data h]
    · show ((bitsToNibbles v.data).map hexDigitChar).foldl
        (fun a c => 16 * a + hexCharVal c) 0 = bitsToNat v.data
      exact hexFold_eq_bitFold v.data h 0
    · intro c hc
      simp only [List.mem_map] at hc
      obtain ⟨n, hn, rfl⟩ := hc
      exact hexDigitChar_isHexDigit n (nibbles_lt v.data n hn)
  · intro h
    refine ⟨"Cannot convert to hex unambiguously - not multiple of 4 bits.", ?_⟩
    rw [hmemt]
    simp only [VerilogBits.hex]
    rw [if_pos h]
  · exact ⟨VerilogBits.bin v, hmemf, bin_length v, rfl⟩

/-- Witness for the amended C9 on the 8-bit word with value 171: the hex
serialization has two characters and decodes back to 171; the binary
serialization is the raw 8-character bit string. -/
theorem C9_serialization_amended_witness :
    (∃ s, memWordText true ⟨[true, false, true, false, true, false, true, true]⟩ =
      .ok s ∧ s.length = 2 ∧ hexStringVal s = 171) ∧
    (∃ s, memWordText false ⟨[true, false, true]⟩ = .ok s ∧ s.length = 3) := by
  constructor
  · obtain ⟨s, h1, h2, h3, h4⟩ :=
      (C9_serialization_amended
        ⟨[true, false, true, false, true, false, true, true]⟩).1 (by decide)
    refine ⟨s, h1, by rw [h2]; rfl, by rw [h3]; rfl⟩
  · obtain ⟨s, h1, h2, h3⟩ :=
      (C9_serialization_amended ⟨[true, false, true]⟩).2.2
    exact ⟨s, h1, by rw [h2]; rfl⟩

end Veriflow
